import Mathlib

/-!
Shallow embedding of `src/product_catalogue_update_tool_v1.py`, a batch tool
that updates a product-catalogue spreadsheet from the Cisco EoX REST API.

Modelling conventions:
* Spreadsheet cell values are `String`; an empty cell (Python `None` or the
  empty string, both falsy) is modelled as `""`.
* The JSON payload of one EOX record entry is modelled as an association list
  from field name to the string stored under that field in the inner
  `value` key (the schema of the API for date fields).  The error marker is
  an entry whose key list contains `"EOXError"`.
* Effects are made explicit: cell assignments become a write log, API GET
  requests become a call log, and the text report becomes a `Report` value.
* An exception that the source does not catch (the `TypeError` raised by
  `datetime.strptime` on a non-string argument) is modelled as a `crash`
  outcome that aborts the remainder of the run, reflected by
  `RunOutcome.completed = false`.
-/

namespace Catalogue

/-- Python value domain needed for the audit entries and sentinels of the
source: a string, the constant `False`, or the constant `None`. -/
inductive PyVal where
  | pstr (s : String)
  | pfalse
  | pnone
deriving DecidableEq, Repr

/-- Python test `x == False` on a `PyVal` (a string or `None` is never equal
to `False`). -/
def pyEqFalse : PyVal → Bool
  | PyVal.pfalse => true
  | _ => false

/-- `scan_limit = 5000` from the source: number of products to update per
sheet. -/
def scan_limit : Nat := 5000

/-! ### `format_date`

The source parses with `datetime.strptime(date_str, '%Y-%m-%d')` and
reformats with `strftime('%d/%m/%Y')`, returning the input unchanged on
`ValueError`.  CPython `_strptime` compiles `%Y-%m-%d` to the regular
expression `\d\d\d\d` `-` `(1[0-2]|0[1-9]|[1-9])` `-`
`(3[01]|[12]\d|0[1-9]|[1-9])` (digits modelled as ASCII `0`-`9`), matched as
a prefix, and raises `ValueError` when the match fails or does not consume
the whole string; constructing the resulting `datetime` additionally
requires year at least 1 and the day to exist in the given month.  Because
the two hyphens in the format are literal, the accepted strings are exactly:
four digits, a hyphen, a one- or two-digit month 1..12, a hyphen, and a one-
or two-digit day valid for that month, with nothing left over. -/

/-- Numeric value of a list of ASCII digit characters. -/
def digitsToNat (l : List Char) : Nat :=
  l.foldl (fun a c => 10 * a + (c.toNat - 48)) 0

/-- Split a character list at every hyphen (the literal separators of the
`%Y-%m-%d` format). -/
def splitDash : List Char → List (List Char)
  | [] => [[]]
  | c :: rest =>
    if c = '-' then [] :: splitDash rest
    else
      match splitDash rest with
      | [] => [[c]]
      | p :: ps => (c :: p) :: ps

/-- Gregorian leap-year rule used by Python `datetime`. -/
def isLeap (y : Nat) : Bool :=
  y % 4 = 0 && (y % 100 ≠ 0 || y % 400 = 0)

/-- Number of days in a month, as validated by the Python `datetime`
constructor. -/
def daysInMonth (y m : Nat) : Nat :=
  if m = 2 then (if isLeap y then 29 else 28)
  else if m = 4 || m = 6 || m = 9 || m = 11 then 30
  else 31

/-- The month token accepted by the `%m` directive between the literal
hyphens: one or two ASCII digits with value 1..12. -/
def monthTokOk (t : List Char) : Bool :=
  t.all Char.isDigit && (decide (t.length = 1) || decide (t.length = 2))
    && decide (1 ≤ digitsToNat t) && decide (digitsToNat t ≤ 12)

/-- The day token accepted by the `%d` directive, which must also consume
the rest of the string: one or two ASCII digits with value 1..31. -/
def dayTokOk (t : List Char) : Bool :=
  t.all Char.isDigit && (decide (t.length = 1) || decide (t.length = 2))
    && decide (1 ≤ digitsToNat t) && decide (digitsToNat t ≤ 31)

/-- `datetime.strptime(s, '%Y-%m-%d')`: `some (year, month, day)` on
success, `none` for the `ValueError` cases. -/
def parseISOChars (l : List Char) : Option (Nat × Nat × Nat) :=
  match splitDash l with
  | [y, m, d] =>
    if y.all Char.isDigit && decide (y.length = 4) && monthTokOk m && dayTokOk d
        && decide (1 ≤ digitsToNat y)
        && decide (digitsToNat d ≤ daysInMonth (digitsToNat y) (digitsToNat m)) then
      some (digitsToNat y, digitsToNat m, digitsToNat d)
    else Option.none
  | _ => Option.none

/-- The ASCII digit character of `n % 10`. -/
def natDigitChar (n : Nat) : Char := Char.ofNat (48 + n % 10)

/-- Two-digit zero-padded rendering used by the `%d` and `%m` directives of
`strftime` (the values involved are below 100). -/
def pad2Chars (n : Nat) : List Char := [natDigitChar (n / 10), natDigitChar n]

/-- Rendering of the year by the `%Y` directive of `strftime` (unpadded on
glibc; the parsed year always has at most four digits). -/
def yearChars (y : Nat) : List Char :=
  if y < 10 then [natDigitChar y]
  else if y < 100 then [natDigitChar (y / 10), natDigitChar y]
  else if y < 1000 then [natDigitChar (y / 100), natDigitChar (y / 10), natDigitChar y]
  else [natDigitChar (y / 1000), natDigitChar (y / 100), natDigitChar (y / 10), natDigitChar y]

/-- `strftime('%d/%m/%Y')` character output. -/
def fmtChars (y m d : Nat) : List Char :=
  pad2Chars d ++ '/' :: pad2Chars m ++ '/' :: yearChars y

/-- `format_date` from the source: reformat an ISO `%Y-%m-%d` string to
`%d/%m/%Y`; on `ValueError` (any string the parse rejects) return the input
unchanged. -/
def format_date (s : String) : String :=
  match parseISOChars s.data with
  | some (y, m, d) => String.mk (fmtChars y m d)
  | Option.none => s

/-! ### `eox_value` and the per-item machinery -/

/-- One entry of the `EOXRecord` list: field name paired with the string
under the `value` key of that field. -/
abbrev EoxEntry := List (String × String)

/-- `eox_value` from the source.  The `for` loop returns during its first
iteration in both branches (`item['value']` on success, `False` on
`KeyError`), so later entries are never consulted; an empty list falls
through the loop and returns `None`. -/
def eox_value (field : String) : List EoxEntry → PyVal
  | [] => PyVal.pnone
  | e :: _ =>
    match List.lookup field e with
    | some v => PyVal.pstr v
    | Option.none => PyVal.pfalse

/-- Result of the call `format_date(eox_value(...))` in the source:
`datetime.strptime` raises `TypeError` when its argument is not a string
(`False` or `None`), and `format_date` catches only `ValueError`, so that
exception escapes. -/
inductive FdRes where
  | ok (s : String)
  | typeError
deriving DecidableEq, Repr

/-- Apply `format_date` to the Python value returned by `eox_value`. -/
def format_date_py : PyVal → FdRes
  | PyVal.pstr s => FdRes.ok (format_date s)
  | _ => FdRes.typeError

/-- The error scan of the source: a double loop setting `error_present` when
some entry of some record has the key `EOXError`.  The inner `break` only
exits the inner loop, but the flag is never reset, so the result is exactly:
some entry anywhere in the list carries the marker. -/
def error_present (eox : List EoxEntry) : Bool :=
  eox.any (fun e => e.any (fun kv => kv.1 = "EOXError"))

/-- Result of `get_request` plus the `EOXRecord` extraction: `failure` when
`get_request` returned `False` (connection error or non-2xx status),
otherwise the parsed payload, whose `EOXRecord` key may be absent. -/
inductive ApiResult where
  | failure
  | payload (eox : Option (List EoxEntry))
deriving DecidableEq, Repr

/-- A usable response: the payload carries an `EOXRecord` list with no error
marker anywhere in it. -/
def usable : ApiResult → Bool
  | ApiResult.payload (some eox) => !(error_present eox)
  | _ => false

/-! ### Token handling -/

/-- Persisted access token: the fields of `access_token.json` that the
source reads. -/
structure Token where
  access_token : String
  expires_at : Int
deriving DecidableEq, Repr

/-- Observable effects of one `check_token` call: the returned token, the
number of `get_token` requests issued, and the number of overwrites of the
token file by `save_token`. -/
structure TokenOutcome where
  token : Token
  requests : Nat
  saves : Nat
deriving DecidableEq, Repr

/-- `check_token` from the source.  `persisted` is the parsed content of the
token file when it exists, `now` is `time.time()`, and `fresh` is the token
the authorisation endpoint would return. -/
def check_token (persisted : Option Token) (now : Int) (fresh : Token) : TokenOutcome :=
  match persisted with
  | Option.none => ⟨fresh, 1, 1⟩
  | some t => if t.expires_at ≤ now then ⟨fresh, 1, 1⟩ else ⟨t, 0, 0⟩

/-! ### Column lookup -/

/-- Helper for `find_column`: scan the header cells left to right, 1-based. -/
def find_column_go (title : String) : List String → Nat → Option Nat
  | [], _ => Option.none
  | h :: t, i => if h = title then some i else find_column_go title t (i + 1)

/-- `find_column` from the source: index (1-based, as `col_idx`) of the
first cell of the title row whose value equals the title; the source exits
the process when the title is absent, modelled as `none`. -/
def find_column (header : List String) (title : String) : Option Nat :=
  find_column_go title header 1

/-! ### The update engine

`hw_process` and `sw_process` iterate over the cells of the key column in
top-to-bottom order.  A cell carries a row index (`openpyxl` rows are
1-based, row 1 is the title row; the source guard `part_number.row is not 1`
coincides with inequality on these small interned ints) and a value. -/

/-- One cell of the key column. -/
structure Cell where
  row : Nat
  value : String
deriving DecidableEq, Repr

/-- One recorded cell assignment `sheet.cell(row=..., column=...).value = v`:
either a date string or the `datetime.now()` timestamp. -/
inductive WVal where
  | str (s : String)
  | now
deriving DecidableEq, Repr

/-- A logged cell write. -/
structure Write where
  row : Nat
  col : Nat
  val : WVal
deriving DecidableEq, Repr

/-- Audit entry of the hardware section: `(product_id, ldos_date, eol_date)`
(the two date variables hold sentinels when the extracted values were
empty). -/
abbrev HwEntry := String × PyVal × PyVal

/-- Audit entry of the software section: `(software_id, ldos_date)`. -/
abbrev SwEntry := String × PyVal

/-- Result of processing one non-blank identifier after the GET request:
skip (`continue`), update with a list of cell writes and an audit entry, or
crash (an uncaught `TypeError` that aborts the run). -/
inductive ItemStep (α : Type) where
  | skip
  | update (ws : List Write) (entry : α)
  | crash
deriving DecidableEq, Repr

/-- Column configuration of the hardware section: the API response per
product id, and the column indices found by `find_column` for
`HWEndofSupportDate`, `HWEndofLifeDate` and `Updated`. -/
structure HwCfg where
  api : String → ApiResult
  ldosCol : Nat
  eolCol : Nat
  updCol : Nat

/-- Column configuration of the software section. -/
structure SwCfg where
  api : String → ApiResult
  ldosCol : Nat
  updCol : Nat

/-- The body of the hardware loop for one non-blank product id, from the GET
request to the `updated_products.append`.  Mirrors the source order:
failure of `get_request` skips, a missing `EOXRecord` key skips, an error
marker anywhere in the record skips; then the two dates are extracted, the
two date cells are written only for non-empty values, the empty-value
sentinels are the string `Not available` (support end) and `False` (end of
life), and the `Updated` cell is stamped under the guard
`not (ldos_date == False and eol_date == False)`. -/
def hw_item (cfg : HwCfg) (row : Nat) (pid : String) : ItemStep HwEntry :=
  match cfg.api pid with
  | ApiResult.failure => ItemStep.skip
  | ApiResult.payload Option.none => ItemStep.skip
  | ApiResult.payload (some eox) =>
    if error_present eox then ItemStep.skip
    else
      match format_date_py (eox_value "LastDateOfSupport" eox),
            format_date_py (eox_value "EndOfSWMaintenanceReleases" eox) with
      | FdRes.typeError, _ => ItemStep.crash
      | FdRes.ok _, FdRes.typeError => ItemStep.crash
      | FdRes.ok ldos0, FdRes.ok eol0 =>
        let ldosW : List Write :=
          if ldos0 ≠ "" then [⟨row, cfg.ldosCol, WVal.str ldos0⟩] else []
        let ldosV : PyVal :=
          if ldos0 ≠ "" then PyVal.pstr ldos0 else PyVal.pstr "Not available"
        let eolW : List Write :=
          if eol0 ≠ "" then [⟨row, cfg.eolCol, WVal.str eol0⟩] else []
        let eolV : PyVal :=
          if eol0 ≠ "" then PyVal.pstr eol0 else PyVal.pfalse
        let stampW : List Write :=
          if !(pyEqFalse ldosV && pyEqFalse eolV) then [⟨row, cfg.updCol, WVal.now⟩] else []
        ItemStep.update (ldosW ++ eolW ++ stampW) (pid, ldosV, eolV)

/-- The body of the software loop for one non-blank software id: same shape
but single-field, empty-value sentinel `False`, and stamp guard
`not ldos_date == False`. -/
def sw_item (cfg : SwCfg) (row : Nat) (sid : String) : ItemStep SwEntry :=
  match cfg.api sid with
  | ApiResult.failure => ItemStep.skip
  | ApiResult.payload Option.none => ItemStep.skip
  | ApiResult.payload (some eox) =>
    if error_present eox then ItemStep.skip
    else
      match format_date_py (eox_value "LastDateOfSupport" eox) with
      | FdRes.typeError => ItemStep.crash
      | FdRes.ok ldos0 =>
        let ldosW : List Write :=
          if ldos0 ≠ "" then [⟨row, cfg.ldosCol, WVal.str ldos0⟩] else []
        let ldosV : PyVal :=
          if ldos0 ≠ "" then PyVal.pstr ldos0 else PyVal.pfalse
        let stampW : List Write :=
          if !(pyEqFalse ldosV) then [⟨row, cfg.updCol, WVal.now⟩] else []
        ItemStep.update (ldosW ++ stampW) (sid, ldosV)

/-- Accumulated observable state of one section run: the final value of
`count`, the log of GET requests as `(row, identifier)` pairs, the log of
cell writes, the `updated_products` list, and whether the loop ran to
completion (`false` when an uncaught exception aborted it). -/
structure RunOutcome (α : Type) where
  scanned : Nat
  calls : List (Nat × String)
  writes : List Write
  audit : List α
  completed : Bool
deriving DecidableEq, Repr

/-- The per-section loop shared verbatim by `hw_process` and `sw_process`:
skip the title row, stop once `count` reaches the scan cap, skip blank key
cells, and otherwise run the per-item body, which skips, updates, or
crashes the run. -/
def run_loop {α : Type} (item : Nat → String → ItemStep α) (cap : Nat) :
    List Cell → Nat → List (Nat × String) → List Write → List α → RunOutcome α
  | [], count, calls, writes, audit => ⟨count, calls, writes, audit, true⟩
  | c :: rest, count, calls, writes, audit =>
    if c.row = 1 then
      run_loop item cap rest count calls writes audit
    else if cap ≤ count then
      ⟨count, calls, writes, audit, true⟩
    else if c.value = "" then
      run_loop item cap rest count calls writes audit
    else
      match item c.row c.value with
      | ItemStep.skip =>
        run_loop item cap rest (count + 1) (calls ++ [(c.row, c.value)]) writes audit
      | ItemStep.update ws e =>
        run_loop item cap rest (count + 1) (calls ++ [(c.row, c.value)])
          (writes ++ ws) (audit ++ [e])
      | ItemStep.crash =>
        ⟨count + 1, calls ++ [(c.row, c.value)], writes, audit, false⟩

/-- `hw_process` on the cells of the `PartNumber` column. -/
def hw_process (cfg : HwCfg) (cap : Nat) (cells : List Cell) : RunOutcome HwEntry :=
  run_loop (hw_item cfg) cap cells 0 [] [] []

/-- `sw_process` on the cells of the `oslevel` column. -/
def sw_process (cfg : SwCfg) (cap : Nat) (cells : List Cell) : RunOutcome SwEntry :=
  run_loop (sw_item cfg) cap cells 0 [] [] []

/-- The data serialized by `create_report`: the two summary counts and the
audit entries in encounter order. -/
structure Report (α : Type) where
  scanned : Nat
  updated : Nat
  entries : List α
deriving DecidableEq, Repr

/-- The report file content produced after a section run:
`create_report(sheet, count, len(updated_products), updated_products, ...)`
is reached only when the loop did not crash. -/
def run_report {α : Type} (o : RunOutcome α) : Option (Report α) :=
  if o.completed then some ⟨o.scanned, o.audit.length, o.audit⟩ else Option.none

/-- A key-column cell the loop actually scans: below the title row and
non-blank. -/
def nonblankData (c : Cell) : Bool :=
  !(c.row == 1) && !(c.value == "")

/-- Replay of the write log on one row of the sheet, to read off the final
row contents (1-based columns). -/
def applyWrite (rownum : Nat) (rowvals : List WVal) (w : Write) : List WVal :=
  if w.row = rownum then rowvals.set (w.col - 1) w.val else rowvals

/-- Final contents of row `rownum`, starting from `init`, after the logged
writes. -/
def finalRow (rownum : Nat) (init : List WVal) (ws : List Write) : List WVal :=
  ws.foldl (applyWrite rownum) init

/-! ### Generic facts about the per-section loop -/

/-- Every write in the final log either was in the log already or was
produced by the item body of a scanned (non-title, non-blank) cell. -/
theorem run_loop_writes_pred {α : Type} (item : Nat → String → ItemStep α) (cap : Nat)
    (P : Write → Prop) :
    ∀ (cells : List Cell) (count : Nat) (calls : List (Nat × String))
      (writes : List Write) (audit : List α),
      (∀ w ∈ writes, P w) →
      (∀ c ∈ cells, c.row ≠ 1 → c.value ≠ "" →
        ∀ ws e, item c.row c.value = ItemStep.update ws e → ∀ w ∈ ws, P w) →
      ∀ w ∈ (run_loop item cap cells count calls writes audit).writes, P w := by
  intro cells
  induction cells with
  | nil =>
    intro count calls writes audit h1 _ w hw
    simp only [run_loop] at hw
    exact h1 w hw
  | cons c rest ih =>
    intro count calls writes audit h1 h2 w hw
    simp only [run_loop] at hw
    by_cases hr : c.row = 1
    · rw [if_pos hr] at hw
      exact ih count calls writes audit h1
        (fun c' hc' => h2 c' (List.mem_cons_of_mem _ hc')) w hw
    · rw [if_neg hr] at hw
      by_cases hcap : cap ≤ count
      · rw [if_pos hcap] at hw
        exact h1 w hw
      · rw [if_neg hcap] at hw
        by_cases hv : c.value = ""
        · rw [if_pos hv] at hw
          exact ih count calls writes audit h1
            (fun c' hc' => h2 c' (List.mem_cons_of_mem _ hc')) w hw
        · rw [if_neg hv] at hw
          rcases hi : item c.row c.value with _ | ⟨ws, e⟩ | _
          · simp only [hi] at hw
            exact ih _ _ _ _ h1
              (fun c' hc' => h2 c' (List.mem_cons_of_mem _ hc')) w hw
          · simp only [hi] at hw
            refine ih _ _ _ _ ?_
              (fun c' hc' => h2 c' (List.mem_cons_of_mem _ hc')) w hw
            intro w' hw'
            rcases List.mem_append.1 hw' with h | h
            · exact h1 w' h
            · exact h2 c (List.mem_cons_self _ _) hr hv ws e hi w' h
          · simp only [hi] at hw
            exact h1 w hw

/-- Every GET request in the final log either was in the log already or
targets a scanned (non-title, non-blank) cell. -/
theorem run_loop_calls_pred {α : Type} (item : Nat → String → ItemStep α) (cap : Nat)
    (Q : Nat × String → Prop) :
    ∀ (cells : List Cell) (count : Nat) (calls : List (Nat × String))
      (writes : List Write) (audit : List α),
      (∀ p ∈ calls, Q p) →
      (∀ c ∈ cells, c.row ≠ 1 → c.value ≠ "" → Q (c.row, c.value)) →
      ∀ p ∈ (run_loop item cap cells count calls writes audit).calls, Q p := by
  intro cells
  induction cells with
  | nil =>
    intro count calls writes audit h1 _ p hp
    simp only [run_loop] at hp
    exact h1 p hp
  | cons c rest ih =>
    intro count calls writes audit h1 h2 p hp
    simp only [run_loop] at hp
    by_cases hr : c.row = 1
    · rw [if_pos hr] at hp
      exact ih count calls writes audit h1
        (fun c' hc' => h2 c' (List.mem_cons_of_mem _ hc')) p hp
    · rw [if_neg hr] at hp
      by_cases hcap : cap ≤ count
      · rw [if_pos hcap] at hp
        exact h1 p hp
      · rw [if_neg hcap] at hp
        by_cases hv : c.value = ""
        · rw [if_pos hv] at hp
          exact ih count calls writes audit h1
            (fun c' hc' => h2 c' (List.mem_cons_of_mem _ hc')) p hp
        · rw [if_neg hv] at hp
          have hnew : ∀ q ∈ calls ++ [(c.row, c.value)], Q q := by
            intro q hq
            rcases List.mem_append.1 hq with h | h
            · exact h1 q h
            · rw [List.mem_singleton.1 h]
              exact h2 c (List.mem_cons_self _ _) hr hv
          rcases hi : item c.row c.value with _ | ⟨ws, e⟩ | _
          · simp only [hi] at hp
            exact ih _ _ _ _ hnew
              (fun c' hc' => h2 c' (List.mem_cons_of_mem _ hc')) p hp
          · simp only [hi] at hp
            exact ih _ _ _ _ hnew
              (fun c' hc' => h2 c' (List.mem_cons_of_mem _ hc')) p hp
          · simp only [hi] at hp
            exact hnew p hp

/-- Every audit entry in the final list either was in the list already or
was produced by the item body of some cell. -/
theorem run_loop_audit_pred {α : Type} (item : Nat → String → ItemStep α) (cap : Nat)
    (R : α → Prop) :
    ∀ (cells : List Cell) (count : Nat) (calls : List (Nat × String))
      (writes : List Write) (audit : List α),
      (∀ e ∈ audit, R e) →
      (∀ c ∈ cells, ∀ ws e, item c.row c.value = ItemStep.update ws e → R e) →
      ∀ e ∈ (run_loop item cap cells count calls writes audit).audit, R e := by
  intro cells
  induction cells with
  | nil =>
    intro count calls writes audit h1 _ e he
    simp only [run_loop] at he
    exact h1 e he
  | cons c rest ih =>
    intro count calls writes audit h1 h2 e he
    simp only [run_loop] at he
    by_cases hr : c.row = 1
    · rw [if_pos hr] at he
      exact ih count calls writes audit h1
        (fun c' hc' => h2 c' (List.mem_cons_of_mem _ hc')) e he
    · rw [if_neg hr] at he
      by_cases hcap : cap ≤ count
      · rw [if_pos hcap] at he
        exact h1 e he
      · rw [if_neg hcap] at he
        by_cases hv : c.value = ""
        · rw [if_pos hv] at he
          exact ih count calls writes audit h1
            (fun c' hc' => h2 c' (List.mem_cons_of_mem _ hc')) e he
        · rw [if_neg hv] at he
          rcases hi : item c.row c.value with _ | ⟨ws, e'⟩ | _
          · simp only [hi] at he
            exact ih _ _ _ _ h1
              (fun c' hc' => h2 c' (List.mem_cons_of_mem _ hc')) e he
          · simp only [hi] at he
            refine ih _ _ _ _ ?_
              (fun c' hc' => h2 c' (List.mem_cons_of_mem _ hc')) e he
            intro e'' he''
            rcases List.mem_append.1 he'' with h | h
            · exact h1 e'' h
            · rw [List.mem_singleton.1 h]
              exact h2 c (List.mem_cons_self _ _) ws e' hi
          · simp only [hi] at he
            exact h1 e he

/-- When the loop runs to completion, the final value of `count` is the
running count plus the number of remaining non-title non-blank cells,
truncated at the scan cap. -/
theorem run_loop_scanned {α : Type} (item : Nat → String → ItemStep α) (cap : Nat) :
    ∀ (cells : List Cell) (count : Nat) (calls : List (Nat × String))
      (writes : List Write) (audit : List α),
      count ≤ cap →
      (run_loop item cap cells count calls writes audit).completed = true →
      (run_loop item cap cells count calls writes audit).scanned
        = min cap (count + cells.countP nonblankData) := by
  intro cells
  induction cells with
  | nil =>
    intro count calls writes audit hle _
    simp only [run_loop, List.countP_nil]
    omega
  | cons c rest ih =>
    intro count calls writes audit hle hcomp
    simp only [run_loop] at hcomp ⊢
    by_cases hr : c.row = 1
    · rw [if_pos hr] at hcomp ⊢
      rw [ih count calls writes audit hle hcomp]
      have hnb : nonblankData c = false := by simp [nonblankData, hr]
      simp [List.countP_cons, hnb]
    · rw [if_neg hr] at hcomp ⊢
      by_cases hcap : cap ≤ count
      · rw [if_pos hcap] at hcomp ⊢
        simp only []
        omega
      · rw [if_neg hcap] at hcomp ⊢
        by_cases hv : c.value = ""
        · rw [if_pos hv] at hcomp ⊢
          rw [ih count calls writes audit hle hcomp]
          have hnb : nonblankData c = false := by simp [nonblankData, hv]
          simp [List.countP_cons, hnb]
        · rw [if_neg hv] at hcomp ⊢
          have hnb : nonblankData c = true := by simp [nonblankData, hr, hv]
          rcases hi : item c.row c.value with _ | ⟨ws, e⟩ | _
          · simp only [hi] at hcomp ⊢
            rw [ih (count + 1) _ _ _ (by omega) hcomp]
            simp only [List.countP_cons, hnb, if_pos]
            omega
          · simp only [hi] at hcomp ⊢
            rw [ih (count + 1) _ _ _ (by omega) hcomp]
            simp only [List.countP_cons, hnb, if_pos]
            omega
          · simp only [hi] at hcomp
            simp at hcomp

/-- When the loop runs to completion, the invariant that the audit list has
one entry per logged call satisfying `u` is preserved, provided the item
body updates exactly on identifiers satisfying `u` and skips exactly on
identifiers violating it. -/
theorem run_loop_updated {α : Type} (item : Nat → String → ItemStep α) (cap : Nat)
    (u : String → Bool)
    (hskip : ∀ r pid, item r pid = ItemStep.skip → u pid = false)
    (hupd : ∀ r pid ws e, item r pid = ItemStep.update ws e → u pid = true) :
    ∀ (cells : List Cell) (count : Nat) (calls : List (Nat × String))
      (writes : List Write) (audit : List α),
      audit.length = calls.countP (fun p => u p.2) →
      (run_loop item cap cells count calls writes audit).completed = true →
      (run_loop item cap cells count calls writes audit).audit.length
        = (run_loop item cap cells count calls writes audit).calls.countP (fun p => u p.2) := by
  intro cells
  induction cells with
  | nil =>
    intro count calls writes audit hinv _
    simp only [run_loop]
    exact hinv
  | cons c rest ih =>
    intro count calls writes audit hinv hcomp
    simp only [run_loop] at hcomp ⊢
    by_cases hr : c.row = 1
    · rw [if_pos hr] at hcomp ⊢
      exact ih count calls writes audit hinv hcomp
    · rw [if_neg hr] at hcomp ⊢
      by_cases hcap : cap ≤ count
      · rw [if_pos hcap] at hcomp ⊢
        exact hinv
      · rw [if_neg hcap] at hcomp ⊢
        by_cases hv : c.value = ""
        · rw [if_pos hv] at hcomp ⊢
          exact ih count calls writes audit hinv hcomp
        · rw [if_neg hv] at hcomp ⊢
          rcases hi : item c.row c.value with _ | ⟨ws, e⟩ | _
          · simp only [hi] at hcomp ⊢
            refine ih _ _ _ _ ?_ hcomp
            simp [List.countP_append, hskip _ _ hi, hinv]
          · simp only [hi] at hcomp ⊢
            refine ih _ _ _ _ ?_ hcomp
            simp [List.countP_append, hupd _ _ _ _ hi, hinv]
          · simp only [hi] at hcomp
            simp at hcomp

/-! ### Facts about the per-item bodies -/

/-- Every write of a hardware item body targets the row of the cell being
processed. -/
theorem hw_item_update_row (cfg : HwCfg) (row : Nat) (pid : String) :
    ∀ ws e, hw_item cfg row pid = ItemStep.update ws e → ∀ w ∈ ws, w.row = row := by
  intro ws e h w hw
  simp only [hw_item] at h
  split at h
  · simp at h
  · simp at h
  · split at h
    · simp at h
    · split at h
      · simp at h
      · simp at h
      · rw [ItemStep.update.injEq] at h
        obtain ⟨hws, -⟩ := h
        subst hws
        simp only [List.mem_append] at hw
        rcases hw with (hw | hw) | hw
        all_goals split at hw <;> simp_all

/-- The audit entry of a hardware item body carries the processed
identifier in its first component. -/
theorem hw_item_entry_fst (cfg : HwCfg) (row : Nat) (pid : String) :
    ∀ ws e, hw_item cfg row pid = ItemStep.update ws e → e.1 = pid := by
  intro ws e h
  simp only [hw_item] at h
  split at h
  · simp at h
  · simp at h
  · split at h
    · simp at h
    · split at h
      · simp at h
      · simp at h
      · rw [ItemStep.update.injEq] at h
        obtain ⟨-, he⟩ := h
        subst he
        rfl

/-- A hardware item body skips exactly when the response is unusable. -/
theorem hw_item_skip_usable (cfg : HwCfg) (row : Nat) (pid : String)
    (h : hw_item cfg row pid = ItemStep.skip) : usable (cfg.api pid) = false := by
  simp only [hw_item] at h
  split at h
  all_goals rename_i ha
  · simp [usable, ha]
  · simp [usable, ha]
  · split at h
    · rename_i he
      simp [usable, ha, he]
    · split at h
      · simp at h
      · simp at h
      · simp at h

/-- A hardware item body updates only on a usable response. -/
theorem hw_item_update_usable (cfg : HwCfg) (row : Nat) (pid : String) :
    ∀ ws e, hw_item cfg row pid = ItemStep.update ws e → usable (cfg.api pid) = true := by
  intro ws e h
  simp only [hw_item] at h
  split at h
  all_goals rename_i ha
  · simp at h
  · simp at h
  · split at h
    · simp at h
    · rename_i he
      simp [usable, ha, he]

/-- An error marker anywhere in the record makes the hardware item body
skip. -/
theorem hw_item_error_skip (cfg : HwCfg) (row : Nat) (pid : String) (eox : List EoxEntry)
    (ha : cfg.api pid = ApiResult.payload (some eox)) (he : error_present eox = true) :
    hw_item cfg row pid = ItemStep.skip := by
  simp [hw_item, ha, he]

/-- Every write of a software item body targets the row of the cell being
processed. -/
theorem sw_item_update_row (cfg : SwCfg) (row : Nat) (sid : String) :
    ∀ ws e, sw_item cfg row sid = ItemStep.update ws e → ∀ w ∈ ws, w.row = row := by
  intro ws e h w hw
  simp only [sw_item] at h
  split at h
  · simp at h
  · simp at h
  · split at h
    · simp at h
    · split at h
      · simp at h
      · rw [ItemStep.update.injEq] at h
        obtain ⟨hws, -⟩ := h
        subst hws
        simp only [List.mem_append] at hw
        rcases hw with hw | hw
        all_goals split at hw <;> simp_all

/-- The audit entry of a software item body carries the processed
identifier in its first component. -/
theorem sw_item_entry_fst (cfg : SwCfg) (row : Nat) (sid : String) :
    ∀ ws e, sw_item cfg row sid = ItemStep.update ws e → e.1 = sid := by
  intro ws e h
  simp only [sw_item] at h
  split at h
  · simp at h
  · simp at h
  · split at h
    · simp at h
    · split at h
      · simp at h
      · rw [ItemStep.update.injEq] at h
        obtain ⟨-, he⟩ := h
        subst he
        rfl

/-- A software item body skips exactly when the response is unusable. -/
theorem sw_item_skip_usable (cfg : SwCfg) (row : Nat) (sid : String)
    (h : sw_item cfg row sid = ItemStep.skip) : usable (cfg.api sid) = false := by
  simp only [sw_item] at h
  split at h
  all_goals rename_i ha
  · simp [usable, ha]
  · simp [usable, ha]
  · split at h
    · rename_i he
      simp [usable, ha, he]
    · split at h
      · simp at h
      · simp at h

/-- A software item body updates only on a usable response. -/
theorem sw_item_update_usable (cfg : SwCfg) (row : Nat) (sid : String) :
    ∀ ws e, sw_item cfg row sid = ItemStep.update ws e → usable (cfg.api sid) = true := by
  intro ws e h
  simp only [sw_item] at h
  split at h
  all_goals rename_i ha
  · simp at h
  · simp at h
  · split at h
    · simp at h
    · rename_i he
      simp [usable, ha, he]

/-- An error marker anywhere in the record makes the software item body
skip. -/
theorem sw_item_error_skip (cfg : SwCfg) (row : Nat) (sid : String) (eox : List EoxEntry)
    (ha : cfg.api sid = ApiResult.payload (some eox)) (he : error_present eox = true) :
    sw_item cfg row sid = ItemStep.skip := by
  simp [sw_item, ha, he]

/-- Two cells of one worksheet column with the same row index are the same
cell (the rows of a column are pairwise distinct). -/
theorem cell_eq_of_row_eq {cells : List Cell} (hnd : (cells.map Cell.row).Nodup)
    {c c' : Cell} (hc : c ∈ cells) (hc' : c' ∈ cells) (hr : c.row = c'.row) : c = c' := by
  exact List.inj_on_of_nodup_map hnd hc hc' hr

/-! ### Facts about `format_date` -/

/-- A rendered decimal digit is never a hyphen. -/
theorem natDigitChar_ne_dash (n : Nat) : natDigitChar n ≠ '-' := by
  have h : n % 10 < 10 := Nat.mod_lt _ (by decide)
  have key : ∀ k < 10, Char.ofNat (48 + k) ≠ '-' := by decide
  exact key (n % 10) h

/-- The rendered year contains no hyphen. -/
theorem yearChars_ne_dash (y : Nat) : ∀ c ∈ yearChars y, c ≠ '-' := by
  unfold yearChars
  split_ifs <;> simp [natDigitChar_ne_dash]

/-- The full `%d/%m/%Y` rendering contains no hyphen. -/
theorem fmtChars_ne_dash (y m d : Nat) : ∀ c ∈ fmtChars y m d, c ≠ '-' := by
  intro c hc
  simp only [fmtChars] at hc
  rcases List.mem_append.1 hc with hc | hc
  · rcases List.mem_append.1 hc with hc | hc
    · simp only [pad2Chars, List.mem_cons, List.not_mem_nil, or_false] at hc
      rcases hc with rfl | rfl
      · exact natDigitChar_ne_dash _
      · exact natDigitChar_ne_dash _
    · rcases List.mem_cons.1 hc with rfl | hc
      · decide
      · simp only [pad2Chars, List.mem_cons, List.not_mem_nil, or_false] at hc
        rcases hc with rfl | rfl
        · exact natDigitChar_ne_dash _
        · exact natDigitChar_ne_dash _
  · rcases List.mem_cons.1 hc with rfl | hc
    · decide
    · exact yearChars_ne_dash y c hc

/-- Splitting a hyphen-free character list yields a single part. -/
theorem splitDash_no_dash (l : List Char) (h : ∀ c ∈ l, c ≠ '-') : splitDash l = [l] := by
  induction l with
  | nil => rfl
  | cons c rest ih =>
    have hc : c ≠ '-' := h c (List.mem_cons_self _ _)
    have hr : splitDash rest = [rest] := ih (fun c' hc' => h c' (List.mem_cons_of_mem _ hc'))
    simp [splitDash, hc, hr]

/-- A string splitting into a single part is rejected by the `%Y-%m-%d`
parse. -/
theorem parseISOChars_single (l l0 : List Char) (h : splitDash l = [l0]) :
    parseISOChars l = Option.none := by
  unfold parseISOChars
  rw [h]

/-- `format_date` returns its input unchanged on any string the `%Y-%m-%d`
parse rejects. -/
theorem format_date_of_parse_none (s : String) (h : parseISOChars s.data = Option.none) :
    format_date s = s := by
  unfold format_date
  rw [h]

/-- The `%d/%m/%Y` output of a successful reformat never parses as
`%Y-%m-%d` again. -/
theorem parseISOChars_fmtChars (y m d : Nat) :
    parseISOChars (fmtChars y m d) = Option.none :=
  parseISOChars_single _ _ (splitDash_no_dash _ (fmtChars_ne_dash y m d))

/-- `format_date` is idempotent. -/
theorem format_date_idem (s : String) : format_date (format_date s) = format_date s := by
  cases h : parseISOChars s.data with
  | none =>
    rw [format_date_of_parse_none s h, format_date_of_parse_none s h]
  | some t =>
    obtain ⟨y, m, d⟩ := t
    have h1 : format_date s = String.mk (fmtChars y m d) := by
      unfold format_date
      rw [h]
    rw [h1]
    exact format_date_of_parse_none _ (parseISOChars_fmtChars y m d)

/-! ### Concrete runs used by the claim theorems and witnesses -/

/-- Demonstration API: one usable record, one error-marked record, every
other request fails. -/
def demoApi : String → ApiResult := fun pid =>
  if pid = "GOOD-1" then
    ApiResult.payload
      (some [[("LastDateOfSupport", "2030-01-02"), ("EndOfSWMaintenanceReleases", "2031-03-04")]])
  else if pid = "ERR-1" then
    ApiResult.payload (some [[("EOXError", "No product IDs were found")]])
  else ApiResult.failure

/-- Demonstration hardware configuration over `demoApi` with the column
layout of the scenario header. -/
def demoHwCfg : HwCfg := ⟨demoApi, 2, 3, 4⟩

/-- Demonstration software configuration over `demoApi`. -/
def demoSwCfg : SwCfg := ⟨demoApi, 2, 3⟩

/-- Demonstration key column: title row, a usable id, a blank cell, an
error-marked id, and an id whose request fails. -/
def demoCells : List Cell :=
  [⟨1, "PartNumber"⟩, ⟨2, "GOOD-1"⟩, ⟨3, ""⟩, ⟨4, "ERR-1"⟩, ⟨5, "MISS-1"⟩]

/-- The report the demonstration hardware run produces. -/
def demoRep : Report HwEntry :=
  ⟨3, 1, [("GOOD-1", PyVal.pstr "02/01/2030", PyVal.pstr "04/03/2031")]⟩

/-- API whose only record carries empty strings in both date fields. -/
def emptyValApi : String → ApiResult := fun pid =>
  if pid = "ABC-1" then
    ApiResult.payload
      (some [[("LastDateOfSupport", ""), ("EndOfSWMaintenanceReleases", "")]])
  else ApiResult.failure

/-- API returning an empty `EOXRecord` list for `A` and a usable record for
`B`. -/
def emptyRecordApi : String → ApiResult := fun pid =>
  if pid = "A" then ApiResult.payload (some [])
  else if pid = "B" then
    ApiResult.payload
      (some [[("LastDateOfSupport", "2025-01-01"), ("EndOfSWMaintenanceReleases", "2026-06-15")]])
  else ApiResult.failure

/-- The end-to-end scenario API of the spec. -/
def e2eApi : String → ApiResult := fun pid =>
  if pid = "ABC-123" then
    ApiResult.payload
      (some [[("LastDateOfSupport", "2025-01-01"), ("EndOfSWMaintenanceReleases", "2026-06-15")]])
  else ApiResult.failure

/-- The hardware header row of the end-to-end scenario. -/
def e2eHeader : List String :=
  ["PartNumber", "HWEndofSupportDate", "HWEndofLifeDate", "Updated"]

/-! ### The claims -/

/-- C1.  The claim states that a row's `Updated` timestamp cell changes if
and only if at least one of its target date cells received a non-empty
extracted value, and in particular that a row whose extracted values are
all empty gets no timestamp.  The hardware code violates this: on a usable
record whose two date fields are both the empty string, no date cell is
written, yet the `Updated` cell is stamped, because the guard
`not (ldos_date == False and eol_date == False)` is dead — `ldos_date` is
never `False` there (its empty-value sentinel is the string
`Not available`), unlike `sw_process` where the sentinel is `False` and the
guard works.  This theorem evaluates the hardware run at that failing
input: the write log holds exactly the timestamp write and no date write. -/
theorem hw_stamps_timestamp_despite_all_empty_values :
    hw_process ⟨emptyValApi, 2, 3, 4⟩ scan_limit [⟨1, "PartNumber"⟩, ⟨2, "ABC-1"⟩]
      = ⟨1, [(2, "ABC-1")], [⟨2, 4, WVal.now⟩],
         [("ABC-1", PyVal.pstr "Not available", PyVal.pfalse)], true⟩ := by
  decide

/-- C3.  The claim states that every recoverable per-item condition —
including an empty `EOXRecord` list or an absent date field — causes only
that identifier to be skipped and never aborts the run.  The code violates
this: for an empty record list `eox_value` returns `None` (for an absent
field, `False`), `datetime.strptime` then raises `TypeError`, and
`format_date` catches only `ValueError`, so the exception escapes the
update loop.  This theorem evaluates the run at that failing input: the
run stops at identifier `A` (`completed = false`), the later usable
identifier `B` is never requested, and no report is produced. -/
theorem empty_record_aborts_entire_run :
    hw_process ⟨emptyRecordApi, 2, 3, 4⟩ scan_limit
        [⟨1, "PartNumber"⟩, ⟨2, "A"⟩, ⟨3, "B"⟩]
      = ⟨1, [(2, "A")], [], [], false⟩ ∧
    run_report (hw_process ⟨emptyRecordApi, 2, 3, 4⟩ scan_limit
        [⟨1, "PartNumber"⟩, ⟨2, "A"⟩, ⟨3, "B"⟩])
      = Option.none := by
  decide

/-- C4.  End-to-end hardware scenario: with the scenario header (whose
columns resolve to 2, 3 and 4), one data row `ABC-123` with empty date and
timestamp cells, and the scenario API response, the run writes
`01/01/2025`, `15/06/2026` and the timestamp into columns 2..4 of row 2 —
so the row becomes `[ABC-123, 01/01/2025, 15/06/2026, <timestamp>]` — and
appends the audit entry `(ABC-123, 01/01/2025, 15/06/2026)` to the
report. -/
theorem hw_end_to_end_scenario :
    find_column e2eHeader "HWEndofSupportDate" = some 2 ∧
    find_column e2eHeader "HWEndofLifeDate" = some 3 ∧
    find_column e2eHeader "Updated" = some 4 ∧
    hw_process ⟨e2eApi, 2, 3, 4⟩ scan_limit [⟨1, "PartNumber"⟩, ⟨2, "ABC-123"⟩]
      = ⟨1, [(2, "ABC-123")],
         [⟨2, 2, WVal.str "01/01/2025"⟩, ⟨2, 3, WVal.str "15/06/2026"⟩, ⟨2, 4, WVal.now⟩],
         [("ABC-123", PyVal.pstr "01/01/2025", PyVal.pstr "15/06/2026")], true⟩ ∧
    finalRow 2 [WVal.str "ABC-123", WVal.str "", WVal.str "", WVal.str ""]
        (hw_process ⟨e2eApi, 2, 3, 4⟩ scan_limit [⟨1, "PartNumber"⟩, ⟨2, "ABC-123"⟩]).writes
      = [WVal.str "ABC-123", WVal.str "01/01/2025", WVal.str "15/06/2026", WVal.now] ∧
    run_report (hw_process ⟨e2eApi, 2, 3, 4⟩ scan_limit [⟨1, "PartNumber"⟩, ⟨2, "ABC-123"⟩])
      = some ⟨1, 1, [("ABC-123", PyVal.pstr "01/01/2025", PyVal.pstr "15/06/2026")]⟩ := by
  decide

/-- C7.  `check_token` with a persisted token whose `expires_at` is at or
before the current time performs exactly one token request and one
overwrite of the token file, returning the fresh token; with `expires_at`
in the future it performs zero requests and zero overwrites and returns
the persisted token unchanged. -/
theorem check_token_expiry_behaviour :
    (∀ (t fresh : Token) (now : Int), t.expires_at ≤ now →
      check_token (some t) now fresh = ⟨fresh, 1, 1⟩) ∧
    (∀ (t fresh : Token) (now : Int), now < t.expires_at →
      check_token (some t) now fresh = ⟨t, 0, 0⟩) := by
  constructor
  · intro t fresh now h
    simp only [check_token]
    rw [if_pos h]
  · intro t fresh now h
    simp only [check_token]
    rw [if_neg (not_le.2 h)]

/-- Witness for C7 at concrete tokens: expiry exactly now (one request, one
save, fresh token returned) and expiry in the future (nothing requested,
persisted token returned). -/
theorem check_token_expiry_behaviour_witness :
    check_token (some ⟨"tokA", 5⟩) 5 ⟨"tokB", 99⟩ = ⟨⟨"tokB", 99⟩, 1, 1⟩ ∧
    check_token (some ⟨"tokA", 7⟩) 5 ⟨"tokB", 99⟩ = ⟨⟨"tokA", 7⟩, 0, 0⟩ :=
  ⟨check_token_expiry_behaviour.1 ⟨"tokA", 5⟩ ⟨"tokB", 99⟩ 5 (by decide),
   check_token_expiry_behaviour.2 ⟨"tokA", 7⟩ ⟨"tokB", 99⟩ 5 (by decide)⟩

/-- The literal `YYYY-MM-DD` pattern as the words of the claim describe it:
four ASCII digits, a hyphen, two digits, a hyphen, two digits.  Modelled
from the words of the spec, for comparison with the behaviour of
`format_date`. -/
def matchesYYYYMMDD (s : String) : Bool :=
  match s.data with
  | [y1, y2, y3, y4, h1, m1, m2, h2, d1, d2] =>
    ([y1, y2, y3, y4, m1, m2, d1, d2].all Char.isDigit) && (h1 == '-') && (h2 == '-')
  | _ => false

/-- C9 counterexample.  The claim states that every string not matching
the `YYYY-MM-DD` pattern passes through `format_date` unchanged, but the
underlying `%Y-%m-%d` parse also accepts one-digit months and days:
`2024-3-7` does not match the pattern yet is reformatted. -/
theorem format_date_pattern_counterexample :
    matchesYYYYMMDD "2024-3-7" = false ∧
    format_date "2024-3-7" = "07/03/2024" ∧
    format_date "2024-3-7" ≠ "2024-3-7" := by
  decide

/-- C9 as amended.  `format_date` returns its input unchanged exactly on
the strings rejected by the `%Y-%m-%d` parse (which also accepts one- and
two-digit months and days, a slightly larger language than the strict
`YYYY-MM-DD` pattern); consequently it is idempotent, and the round trip
holds: `2024-03-07` becomes `07/03/2024`, which then passes through
unchanged. -/
theorem format_date_reformat_spec :
    (∀ x : String, parseISOChars x.data = Option.none → format_date x = x) ∧
    (∀ x : String, format_date (format_date x) = format_date x) ∧
    format_date "2024-03-07" = "07/03/2024" ∧
    format_date "07/03/2024" = "07/03/2024" := by
  refine ⟨?_, ?_, by decide, by decide⟩
  · intro x h
    exact format_date_of_parse_none x h
  · intro x
    exact format_date_idem x

/-- Witness for C9 at concrete strings: a non-date string passes through
unchanged, and reformatting is idempotent on the lenient-parse input. -/
theorem format_date_reformat_spec_witness :
    format_date "hello" = "hello" ∧
    format_date (format_date "2024-3-7") = format_date "2024-3-7" :=
  ⟨format_date_reformat_spec.1 "hello" (by decide),
   format_date_reformat_spec.2.1 "2024-3-7"⟩

/-- C10.  `eox_value` is determined solely by the first entry of the record
list: on a non-empty list it returns the value stored under the requested
field of the first entry when present and `False` otherwise, never
consulting later entries; on an empty list it returns `None`. -/
theorem eox_value_first_entry_only :
    (∀ field : String, eox_value field [] = PyVal.pnone) ∧
    (∀ (field : String) (e : EoxEntry) (rest : List EoxEntry),
      eox_value field (e :: rest)
        = match List.lookup field e with
          | some v => PyVal.pstr v
          | Option.none => PyVal.pfalse) ∧
    (∀ (field : String) (e : EoxEntry) (r1 r2 : List EoxEntry),
      eox_value field (e :: r1) = eox_value field (e :: r2)) :=
  ⟨fun _ => rfl, fun _ _ _ => rfl, fun _ _ _ _ => rfl⟩

/-- C2.  An identifier whose fetched record list carries an `EOXError`
marker anywhere is skipped entirely, in both sections: no cell of its row
is written (date or timestamp), no audit entry for it is appended, its
response is unusable — so it contributes nothing to the updated count —
while its non-blank cell still counts towards the scanned total, which on
a completed run is the capped number of non-blank data cells. -/
theorem error_marker_skips_identifier :
    (∀ (cfg : HwCfg) (cap : Nat) (cells : List Cell) (c : Cell) (eox : List EoxEntry),
      (cells.map Cell.row).Nodup → c ∈ cells → c.row ≠ 1 → c.value ≠ "" →
      cfg.api c.value = ApiResult.payload (some eox) → error_present eox = true →
      (∀ w ∈ (hw_process cfg cap cells).writes, w.row ≠ c.row) ∧
      (∀ e ∈ (hw_process cfg cap cells).audit, e.1 ≠ c.value) ∧
      usable (cfg.api c.value) = false ∧
      nonblankData c = true ∧
      ((hw_process cfg cap cells).completed = true →
        (hw_process cfg cap cells).scanned = min cap (cells.countP nonblankData))) ∧
    (∀ (cfg : SwCfg) (cap : Nat) (cells : List Cell) (c : Cell) (eox : List EoxEntry),
      (cells.map Cell.row).Nodup → c ∈ cells → c.row ≠ 1 → c.value ≠ "" →
      cfg.api c.value = ApiResult.payload (some eox) → error_present eox = true →
      (∀ w ∈ (sw_process cfg cap cells).writes, w.row ≠ c.row) ∧
      (∀ e ∈ (sw_process cfg cap cells).audit, e.1 ≠ c.value) ∧
      usable (cfg.api c.value) = false ∧
      nonblankData c = true ∧
      ((sw_process cfg cap cells).completed = true →
        (sw_process cfg cap cells).scanned = min cap (cells.countP nonblankData))) := by
  constructor
  · intro cfg cap cells c eox hnd hc hr hv ha he
    refine ⟨?_, ?_, ?_, ?_, ?_⟩
    · apply run_loop_writes_pred (hw_item cfg) cap (fun w => w.row ≠ c.row) cells 0 [] [] []
      · intro w hw
        cases hw
      · intro c' hc' hr' hv' ws e hupd w hw
        rw [hw_item_update_row cfg c'.row c'.value ws e hupd w hw]
        intro hrow
        have hcc : c' = c := cell_eq_of_row_eq hnd hc' hc hrow
        rw [hcc] at hupd
        rw [hw_item_error_skip cfg c.row c.value eox ha he] at hupd
        simp at hupd
    · apply run_loop_audit_pred (hw_item cfg) cap (fun e => e.1 ≠ c.value) cells 0 [] [] []
      · intro e he'
        cases he'
      · intro c' hc' ws e hupd
        rw [hw_item_entry_fst cfg c'.row c'.value ws e hupd]
        intro heq
        rw [heq] at hupd
        rw [hw_item_error_skip cfg c'.row c.value eox ha he] at hupd
        simp at hupd
    · simp [usable, ha, he]
    · simp [nonblankData, hr, hv]
    · intro hcomp
      simpa using run_loop_scanned (hw_item cfg) cap cells 0 [] [] [] (Nat.zero_le cap) hcomp
  · intro cfg cap cells c eox hnd hc hr hv ha he
    refine ⟨?_, ?_, ?_, ?_, ?_⟩
    · apply run_loop_writes_pred (sw_item cfg) cap (fun w => w.row ≠ c.row) cells 0 [] [] []
      · intro w hw
        cases hw
      · intro c' hc' hr' hv' ws e hupd w hw
        rw [sw_item_update_row cfg c'.row c'.value ws e hupd w hw]
        intro hrow
        have hcc : c' = c := cell_eq_of_row_eq hnd hc' hc hrow
        rw [hcc] at hupd
        rw [sw_item_error_skip cfg c.row c.value eox ha he] at hupd
        simp at hupd
    · apply run_loop_audit_pred (sw_item cfg) cap (fun e => e.1 ≠ c.value) cells 0 [] [] []
      · intro e he'
        cases he'
      · intro c' hc' ws e hupd
        rw [sw_item_entry_fst cfg c'.row c'.value ws e hupd]
        intro heq
        rw [heq] at hupd
        rw [sw_item_error_skip cfg c'.row c.value eox ha he] at hupd
        simp at hupd
    · simp [usable, ha, he]
    · simp [nonblankData, hr, hv]
    · intro hcomp
      simpa using run_loop_scanned (sw_item cfg) cap cells 0 [] [] [] (Nat.zero_le cap) hcomp

/-- Witness for C2 at the demonstration run: the error-marked identifier
`ERR-1` (row 4) is unusable, no audit entry names it, no write touches its
row, and the scanned total still counts its cell. -/
theorem error_marker_skips_identifier_witness :
    usable (demoHwCfg.api "ERR-1") = false ∧
    (∀ e ∈ (hw_process demoHwCfg scan_limit demoCells).audit, e.1 ≠ "ERR-1") ∧
    (∀ w ∈ (hw_process demoHwCfg scan_limit demoCells).writes, w.row ≠ 4) ∧
    (hw_process demoHwCfg scan_limit demoCells).scanned
      = min scan_limit (demoCells.countP nonblankData) := by
  have h := error_marker_skips_identifier.1 demoHwCfg scan_limit demoCells ⟨4, "ERR-1"⟩
    [[("EOXError", "No product IDs were found")]] (by decide) (by decide) (by decide)
    (by decide) (by decide) (by decide)
  exact ⟨h.2.2.1, h.2.1, h.1, h.2.2.2.2 (by decide)⟩

/-- C5.  On every completed run of either section, the update count written
to the report equals the number of audit entries in it, which equals the
number of logged API calls that returned a usable (non-error) record;
identifiers skipped for fetch failure, missing record, or error marker
contribute no audit entry. -/
theorem report_counts_match_usable_records :
    (∀ (cfg : HwCfg) (cap : Nat) (cells : List Cell) (rep : Report HwEntry),
      run_report (hw_process cfg cap cells) = some rep →
      rep.updated = rep.entries.length ∧
      rep.entries.length
        = (hw_process cfg cap cells).calls.countP (fun p => usable (cfg.api p.2))) ∧
    (∀ (cfg : SwCfg) (cap : Nat) (cells : List Cell) (rep : Report SwEntry),
      run_report (sw_process cfg cap cells) = some rep →
      rep.updated = rep.entries.length ∧
      rep.entries.length
        = (sw_process cfg cap cells).calls.countP (fun p => usable (cfg.api p.2))) := by
  constructor
  · intro cfg cap cells rep hrep
    unfold run_report at hrep
    by_cases hcomp : (hw_process cfg cap cells).completed = true
    · rw [if_pos hcomp] at hrep
      injection hrep with hrep
      subst hrep
      refine ⟨rfl, ?_⟩
      exact run_loop_updated (hw_item cfg) cap (fun pid => usable (cfg.api pid))
        (fun r pid h => hw_item_skip_usable cfg r pid h)
        (fun r pid ws e h => hw_item_update_usable cfg r pid ws e h)
        cells 0 [] [] [] rfl hcomp
    · rw [if_neg hcomp] at hrep
      exact Option.noConfusion hrep
  · intro cfg cap cells rep hrep
    unfold run_report at hrep
    by_cases hcomp : (sw_process cfg cap cells).completed = true
    · rw [if_pos hcomp] at hrep
      injection hrep with hrep
      subst hrep
      refine ⟨rfl, ?_⟩
      exact run_loop_updated (sw_item cfg) cap (fun pid => usable (cfg.api pid))
        (fun r pid h => sw_item_skip_usable cfg r pid h)
        (fun r pid ws e h => sw_item_update_usable cfg r pid ws e h)
        cells 0 [] [] [] rfl hcomp
    · rw [if_neg hcomp] at hrep
      exact Option.noConfusion hrep

/-- Witness for C5 at the demonstration run: its report shows one update,
one audit entry, and exactly one of the three logged calls (the one for
`GOOD-1`) returned a usable record. -/
theorem report_counts_match_usable_records_witness :
    demoRep.updated = demoRep.entries.length ∧
    demoRep.entries.length
      = (hw_process demoHwCfg scan_limit demoCells).calls.countP
          (fun p => usable (demoHwCfg.api p.2)) :=
  report_counts_match_usable_records.1 demoHwCfg scan_limit demoCells demoRep (by decide)

/-- C6.  On every completed run of either section, the scan count written
to the report is the minimum of the scan cap and the number of non-empty
key cells below the title row; and a row with an empty key cell triggers
no API call and receives no write. -/
theorem scan_count_cap_and_blank_rows :
    (∀ (cfg : HwCfg) (cap : Nat) (cells : List Cell) (rep : Report HwEntry),
      (cells.map Cell.row).Nodup →
      run_report (hw_process cfg cap cells) = some rep →
      rep.scanned = min cap (cells.countP nonblankData) ∧
      (∀ c ∈ cells, c.value = "" →
        (∀ p ∈ (hw_process cfg cap cells).calls, p.1 ≠ c.row) ∧
        (∀ w ∈ (hw_process cfg cap cells).writes, w.row ≠ c.row))) ∧
    (∀ (cfg : SwCfg) (cap : Nat) (cells : List Cell) (rep : Report SwEntry),
      (cells.map Cell.row).Nodup →
      run_report (sw_process cfg cap cells) = some rep →
      rep.scanned = min cap (cells.countP nonblankData) ∧
      (∀ c ∈ cells, c.value = "" →
        (∀ p ∈ (sw_process cfg cap cells).calls, p.1 ≠ c.row) ∧
        (∀ w ∈ (sw_process cfg cap cells).writes, w.row ≠ c.row))) := by
  constructor
  · intro cfg cap cells rep hnd hrep
    unfold run_report at hrep
    by_cases hcomp : (hw_process cfg cap cells).completed = true
    · rw [if_pos hcomp] at hrep
      injection hrep with hrep
      subst hrep
      constructor
      · simpa using run_loop_scanned (hw_item cfg) cap cells 0 [] [] [] (Nat.zero_le cap) hcomp
      · intro c hc hv
        constructor
        · apply run_loop_calls_pred (hw_item cfg) cap (fun p => p.1 ≠ c.row) cells 0 [] [] []
          · intro p hp
            cases hp
          · intro c' hc' hr' hv' hrow
            have hcc : c' = c := cell_eq_of_row_eq hnd hc' hc hrow
            rw [hcc] at hv'
            exact hv' hv
        · apply run_loop_writes_pred (hw_item cfg) cap (fun w => w.row ≠ c.row) cells 0 [] [] []
          · intro w hw
            cases hw
          · intro c' hc' hr' hv' ws e hupd w hw
            rw [hw_item_update_row cfg c'.row c'.value ws e hupd w hw]
            intro hrow
            have hcc : c' = c := cell_eq_of_row_eq hnd hc' hc hrow
            rw [hcc] at hv'
            exact hv' hv
    · rw [if_neg hcomp] at hrep
      exact Option.noConfusion hrep
  · intro cfg cap cells rep hnd hrep
    unfold run_report at hrep
    by_cases hcomp : (sw_process cfg cap cells).completed = true
    · rw [if_pos hcomp] at hrep
      injection hrep with hrep
      subst hrep
      constructor
      · simpa using run_loop_scanned (sw_item cfg) cap cells 0 [] [] [] (Nat.zero_le cap) hcomp
      · intro c hc hv
        constructor
        · apply run_loop_calls_pred (sw_item cfg) cap (fun p => p.1 ≠ c.row) cells 0 [] [] []
          · intro p hp
            cases hp
          · intro c' hc' hr' hv' hrow
            have hcc : c' = c := cell_eq_of_row_eq hnd hc' hc hrow
            rw [hcc] at hv'
            exact hv' hv
        · apply run_loop_writes_pred (sw_item cfg) cap (fun w => w.row ≠ c.row) cells 0 [] [] []
          · intro w hw
            cases hw
          · intro c' hc' hr' hv' ws e hupd w hw
            rw [sw_item_update_row cfg c'.row c'.value ws e hupd w hw]
            intro hrow
            have hcc : c' = c := cell_eq_of_row_eq hnd hc' hc hrow
            rw [hcc] at hv'
            exact hv' hv
    · rw [if_neg hcomp] at hrep
      exact Option.noConfusion hrep

/-- Witness for C6 at the demonstration run: the reported scan count is the
capped number of non-blank key cells, and the blank cell in row 3 triggers
no API call. -/
theorem scan_count_cap_and_blank_rows_witness :
    demoRep.scanned = min scan_limit (demoCells.countP nonblankData) ∧
    (∀ p ∈ (hw_process demoHwCfg scan_limit demoCells).calls, p.1 ≠ 3) := by
  have h := scan_count_cap_and_blank_rows.1 demoHwCfg scan_limit demoCells demoRep
    (by decide) (by decide)
  exact ⟨h.1, fun p hp => (h.2 ⟨3, ""⟩ (by decide) rfl).1 p hp⟩

/-- C8.  Invariant: no operation of a run ever writes to a cell of the
title row (row 1) of either worksheet section. -/
theorem title_row_never_mutated :
    (∀ (cfg : HwCfg) (cap : Nat) (cells : List Cell),
      ∀ w ∈ (hw_process cfg cap cells).writes, w.row ≠ 1) ∧
    (∀ (cfg : SwCfg) (cap : Nat) (cells : List Cell),
      ∀ w ∈ (sw_process cfg cap cells).writes, w.row ≠ 1) := by
  constructor
  · intro cfg cap cells
    apply run_loop_writes_pred (hw_item cfg) cap (fun w => w.row ≠ 1) cells 0 [] [] []
    · intro w hw
      cases hw
    · intro c hc hr hv ws e hupd w hw
      rw [hw_item_update_row cfg c.row c.value ws e hupd w hw]
      exact hr
  · intro cfg cap cells
    apply run_loop_writes_pred (sw_item cfg) cap (fun w => w.row ≠ 1) cells 0 [] [] []
    · intro w hw
      cases hw
    · intro c hc hr hv ws e hupd w hw
      rw [sw_item_update_row cfg c.row c.value ws e hupd w hw]
      exact hr

/-- Witness for C8: the timestamp write of the demonstration run targets
row 2, not the title row. -/
theorem title_row_never_mutated_witness :
    (⟨2, 4, WVal.now⟩ : Write).row ≠ 1 :=
  title_row_never_mutated.1 demoHwCfg scan_limit demoCells ⟨2, 4, WVal.now⟩ (by decide)

end Catalogue
